import Mathlib

/-!
Verification development for the crontab discovery/aggregation library
(`crontab/crontabs.py`): the `UserSpool`, `SystemTab` and `AnaCronTab`
tab sources and the `CronTabs` singleton aggregator.

The external `python-crontab` `CronTab` class is the collaborator the
spec calls "CrontabEngine"; its behaviour is modelled from the spec's
collaborator contract (tab construction from a user name, a file path,
or empty; job records with schedule, command, comment and optional
user; `new`, `set_comment`, `setall`, `find_command`, `delete`).

Python object identity is modelled by a heap: job records live in a
single store (`St.heap`, a list indexed by allocation order) and tab
handles hold lists of job ids, so that mutation of a job through one
handle is visible through every handle holding the same id — exactly
as with CPython references.
-/

set_option autoImplicit false

namespace Crontabs

/-- Five schedule fields of a cron job (opaque strings to this core). -/
structure Schedule where
  minute : String
  hour : String
  dom : String
  month : String
  dow : String
  deriving DecidableEq, Repr

/-- A job record, as in the collaborator contract: command, optional
`user` attribute, free-text comment and schedule fields. -/
structure Job where
  command : String
  user : Option String
  comment : String
  sched : Schedule
  deriving DecidableEq, Repr

/-- A tab handle (`CronTab` object): owning user context (`none` for
`user=False`/`user=None`, i.e. ownerless), optional backing file path,
and the ids of the job records it holds, in file order. -/
structure Tab where
  tabUser : Option String
  tabfile : Option String
  jobIds : List Nat
  deriving DecidableEq, Repr

/-- The aggregator-visible mutable state: the job heap (ids are list
indices, allocated in order), the `CronTabs` list of owned tab handles,
and the `_all` merged-view cache (`none` models Python `None`). -/
structure St where
  heap : List Job
  tabs : List Tab
  allCache : Option (List Nat)
  deriving DecidableEq, Repr

/-- Environment supplying what the collaborator reads outside the
modelled directories: the invoking user's name, and the job lists the
CrontabEngine parses for a given user's crontab or a given tab file. -/
structure Env where
  currentUser : String
  userTabJobs : String → List Job
  fileTabJobs : String → List Job

/-! ### Filesystem snapshot -/

/-- One directory entry: its name, whether the file is executable
(`os.access(path, X_OK)`), and the account name owning it
(`getpwuid(stat(path).st_uid).pw_name`); `owner = none` models the
`KeyError` case where the UID maps to no account. -/
structure DirEntry where
  name : String
  executable : Bool
  owner : Option String
  deriving DecidableEq, Repr

/-- A consistent filesystem snapshot. A directory maps to `some l`
(readable, entries `l`) or `none` (exists but listing raises OSError,
e.g. permission denied); paths in `files` are regular files. -/
structure FileSystem where
  dirs : List (String × Option (List DirEntry))
  files : List String
  deriving DecidableEq, Repr

/-- `os.path.isdir`. -/
def fsIsDir (fs : FileSystem) (p : String) : Bool :=
  (fs.dirs.lookup p).isSome

/-- `os.path.isfile`. -/
def fsIsFile (fs : FileSystem) (p : String) : Bool :=
  fs.files.contains p

/-- `os.listdir`, which raises OSError on a missing or unreadable
directory (modelled as `Except.error ()`). -/
def fsRawListdir (fs : FileSystem) (p : String) : Except Unit (List DirEntry) :=
  match fs.dirs.lookup p with
  | some (some l) => .ok l
  | some none => .error ()
  | none => .error ()

/-- `os.path.join(loc, name)`: avoids a doubled separator when `loc`
already ends with one. -/
def joinPath (loc name : String) : String :=
  if loc.data.getLast? = some '/' then loc ++ name else loc ++ "/" ++ name

/-- Python `item[0] == '.'`: the name's first character is a dot. -/
def headIsDot (n : String) : Bool :=
  match n.data with
  | '.' :: _ => true
  | _ => false

/-- Python `str.split('.')`: split a character list on every dot. -/
def splitDot : List Char → List (List Char)
  | [] => [[]]
  | x :: xs =>
    match splitDot xs with
    | r :: rs => if x = '.' then [] :: r :: rs else (x :: r) :: rs
    | [] => [[]]

/-- Python `loc.split('.')[-1]`: the last dot-separated segment. -/
def lastDotSegment (s : String) : String :=
  String.mk ((splitDot s.data).getLastD [])

/-- Python `text in command` substring test, used by the collaborator's
`find_command`. -/
def strContains (s pat : String) : Bool :=
  decide (pat.data <:+: s.data)

/-! ### Collaborator tab construction (modelled from the spec's
CrontabEngine contract) -/

/-- Allocate job records on the heap, returning their fresh ids. -/
def allocJobs (s : St) (js : List Job) : List Nat × St :=
  (List.range' s.heap.length js.length, { s with heap := s.heap ++ js })

/-- `CronTab(user=username)`: a handle bound to that user; the engine
resolves the backing file from the identity. -/
def mkUserTab (env : Env) (u : String) (s : St) : Tab × St :=
  let (ids, s') := allocJobs s (env.userTabJobs u)
  (⟨some u, none, ids⟩, s')

/-- `CronTab(tabfile=path)` / `CronTab(user=False, tabfile=path)`: a
handle bound directly to a file, with no user identity. -/
def mkFileTab (env : Env) (path : String) (s : St) : Tab × St :=
  let (ids, s') := allocJobs s (env.fileTabJobs path)
  (⟨none, some path, ids⟩, s')

/-! ### UserSpool -/

/-- `UserSpool.listdir`: `os.listdir(loc)` with `OSError` caught and
converted to the empty list. -/
def listdir (fs : FileSystem) (loc : String) : List DirEntry :=
  match fsRawListdir fs loc with
  | .ok l => l
  | .error _ => []

/-- `UserSpool.get_owner`: owner account name of the file at the
entry's path; `stat` succeeds on a listed entry of the snapshot, and a
`getpwuid` `KeyError` (UID without account) is caught and returned as
`none`. -/
def get_owner (e : DirEntry) : Option String :=
  e.owner

/-- `UserSpool.generate(loc, username)`: an owned per-user tab when the
file's owner matches the entry name, otherwise an abandoned tab bound
to the file path. -/
def generate (env : Env) (loc : String) (e : DirEntry) (s : St) : Tab × St :=
  if get_owner e ≠ some e.name then
    mkFileTab env (joinPath loc e.name) s
  else
    mkUserTab env e.name s

/-- The `for username in self.listdir(loc)` loop of
`UserSpool.__init__`, appending the tab generated for each entry. -/
def userSpoolGo (env : Env) (loc : String) (s : St) (acc : List Tab) :
    List DirEntry → List Tab × St
  | [] => (acc, s)
  | e :: rest =>
    let (t, s') := generate env loc e s
    userSpoolGo env loc s' (acc ++ [t]) rest

/-- `UserSpool(loc)`: tabs for every spool entry, falling back to the
invoking user's personal crontab (`CronTab(user=True)`) when no entry
produced a tab. -/
def UserSpool (env : Env) (fs : FileSystem) (loc : String) (s : St) :
    List Tab × St :=
  let (tabs, s') := userSpoolGo env loc s [] (listdir fs loc)
  if tabs.isEmpty then
    let (t, s'') := mkUserTab env env.currentUser s'
    ([t], s'')
  else
    (tabs, s')

/-! ### SystemTab -/

/-- The `for item in os.listdir(loc)` loop of `SystemTab.__init__`:
skip dot-prefixed names, otherwise an ownerless file-bound tab per
entry. -/
def systemTabGo (env : Env) (loc : String) (s : St) (acc : List Tab) :
    List DirEntry → List Tab × St
  | [] => (acc, s)
  | e :: rest =>
    if headIsDot e.name then
      systemTabGo env loc s acc rest
    else
      let (t, s') := mkFileTab env (joinPath loc e.name) s
      systemTabGo env loc s' (acc ++ [t]) rest

/-- `SystemTab(loc)`: one ownerless tab per non-dot directory entry, or
one for the single file, or nothing. The directory listing is not
guarded: an unreadable directory raises (`Except.error`). -/
def SystemTab (env : Env) (fs : FileSystem) (loc : String) (s : St) :
    Except Unit (List Tab × St) :=
  if fsIsDir fs loc then
    match fsRawListdir fs loc with
    | .error _ => .error ()
    | .ok items => .ok (systemTabGo env loc s [] items)
  else if fsIsFile fs loc then
    let (t, s') := mkFileTab env loc s
    .ok ([t], s')
  else
    .ok ([], s)

/-! ### The merged view: `CronTabs.all` -/

/-- `tab.user or 'unknown'` under Python truthiness: a missing or empty
user falls back to the literal label. -/
def effUser (t : Tab) : String :=
  match t.tabUser with
  | some u => if u = "" then "unknown" else u
  | none => "unknown"

/-- One iteration of the merged-view loop body for job `id` of tab `t`:
`if job.user is None: job.user = tab.user or 'unknown'`, performed on
the heap (the very job record the owning tab holds). -/
def assignJob (h : List Job) (t : Tab) (id : Nat) : List Job :=
  match h[id]? with
  | some j => if j.user = none then h.set id { j with user := some (effUser t) } else h
  | none => h

/-- The inner `for job in tab` loop of `CronTabs.all`: default the
user of each job of `t` and append its id to the merged view. -/
def buildTabGo (t : Tab) (h : List Job) (acc : List Nat) :
    List Nat → List Job × List Nat
  | [] => (h, acc)
  | id :: rest => buildTabGo t (assignJob h t id) (acc ++ [id]) rest

/-- The outer `for tab in self` loop of `CronTabs.all`, over the owned
tabs in insertion order. -/
def buildAllGo (h : List Job) (acc : List Nat) :
    List Tab → List Job × List Nat
  | [] => (h, acc)
  | t :: ts =>
    let (h', acc') := buildTabGo t h acc t.jobIds
    buildAllGo h' acc' ts

/-- The `CronTabs.all` property: return the cached merged view if
present, else rebuild it (assigning effective users on the heap as a
side effect) and cache it. -/
def allRead (s : St) : List Nat × St :=
  match s.allCache with
  | some ids => (ids, s)
  | none =>
    let (h, ids) := buildAllGo s.heap [] s.tabs
    (ids, ⟨h, s.tabs, some ids⟩)

/-! ### AnaCronTab -/

/-- `find_command` over the merged view: the jobs (with their ids)
whose command contains the text, in merged-view order. -/
def findCommandJobs (h : List Job) (ids : List Nat) (txt : String) :
    List (Nat × Job) :=
  ids.filterMap fun id =>
    match h[id]? with
    | some j => if strContains j.command txt then some (id, j) else none
    | none => none

/-- `"Anacron " + loc.split('.')[-1]`: the absorbed-job comment built
from the last dot-separated segment of the directory path. -/
def anaComment (loc : String) : String :=
  "Anacron " ++ lastDotSegment loc

/-- The absorbed job `AnaCronTab.add` builds for a kept entry: command
is the entry's full path, user is copied from the template job, the
comment names the directory's period, and `setall` copies the
template's schedule fields verbatim. -/
def absorbedJob (loc : String) (tj : Job) (e : DirEntry) : Job :=
  ⟨joinPath loc e.name, tj.user, anaComment loc, tj.sched⟩

/-- The filter of `AnaCronTab.add`: an entry is skipped when its name
is exactly `0anacron`, starts with `.`, or the file is not
executable. -/
def anaKeep (e : DirEntry) : Bool :=
  !(e.name = "0anacron" || headIsDot e.name || !e.executable)

/-- The `for item in os.listdir(loc): self.add(loc, item, jobs[0])`
loop: each kept entry allocates one absorbed job in the seeded handle
(`tj` is the template job's record, fixed before the loop — the loop
itself only allocates, so re-reading it each iteration would yield the
same value). -/
def anaAddGo (loc : String) (tj : Job) (s : St) (acc : List Nat) :
    List DirEntry → List Nat × St
  | [] => (acc, s)
  | e :: rest =>
    if anaKeep e then
      anaAddGo loc tj { s with heap := s.heap ++ [absorbedJob loc tj e] }
        (acc ++ [s.heap.length]) rest
    else
      anaAddGo loc tj s acc rest

/-- `jobs[0].delete()`: remove the template job from the handle that
owns it. Job ids are allocated to a single handle, so removing the id
wherever it occurs among the owned tabs is removal from its one owning
handle; the stale `_all` cache is not touched, as in the source. -/
def deleteJob (s : St) (id : Nat) : St :=
  { s with tabs := s.tabs.map fun t => { t with jobIds := t.jobIds.filter (· ≠ id) } }

/-- `AnaCronTab(loc, tabs)`: nothing unless the aggregator already has
tabs and `loc` is a directory; then a fresh empty ownerless seeded
handle, a `tabs.all.find_command(loc)` search (which builds the merged
view, with its user-defaulting side effect), absorption of each kept
entry when a template job is found, and deletion of the template. The
directory listing in the absorption step is unguarded, so an
unreadable directory raises. -/
def AnaCronTab (fs : FileSystem) (loc : String) (s : St) :
    Except Unit (List Tab × St) :=
  if s.tabs ≠ [] ∧ fsIsDir fs loc then
    let (ids0, s1) := allRead s
    match findCommandJobs s1.heap ids0 loc with
    | [] => .ok ([⟨none, none, []⟩], s1)
    | (tid, tj) :: _ =>
      match fsRawListdir fs loc with
      | .error _ => .error ()
      | .ok items =>
        let (seedIds, s2) := anaAddGo loc tj s1 [] items
        .ok ([⟨none, none, seedIds⟩], deleteJob s2 tid)
  else
    .ok ([], s)

/-! ### The CronTabs aggregator -/

/-- `CronTabs.add`: append every returned tab handle to the collection,
invalidating the `_all` cache at each append (a source yielding zero
handles leaves the cache alone). -/
def addTabs (s : St) (ts : List Tab) : St :=
  ts.foldl (fun s t => { s with tabs := s.tabs ++ [t], allCache := none }) s

/-- `self.add(UserSpool, loc)`. -/
def addUserSpool (env : Env) (fs : FileSystem) (loc : String) (s : St) : St :=
  let (ts, s') := UserSpool env fs loc s
  addTabs s' ts

/-- `self.add(SystemTab, loc)`; an error from the source propagates. -/
def addSystemTab (env : Env) (fs : FileSystem) (loc : String) (s : St) :
    Except Unit St :=
  match SystemTab env fs loc s with
  | .error e => .error e
  | .ok (ts, s') => .ok (addTabs s' ts)

/-- `self.add(AnaCronTab, loc)`; an error from the source propagates. -/
def addAnaCronTab (fs : FileSystem) (loc : String) (s : St) :
    Except Unit St :=
  match AnaCronTab fs loc s with
  | .error e => .error e
  | .ok (ts, s') => .ok (addTabs s' ts)

/-- The discovery pass of `CronTabs.__init__`: walk `KNOWN_LOCATIONS`
in order; an uncaught error from any location aborts the rest of the
pass. -/
def discoverAll (env : Env) (fs : FileSystem) (s : St) : Except Unit St := do
  let s := addUserSpool env fs "/var/spool/cron/crontabs/" s
  let s ← addSystemTab env fs "/etc/crontab" s
  let s ← addSystemTab env fs "/etc/cron.d/" s
  let s ← addAnaCronTab fs "/etc/cron.hourly" s
  let s ← addAnaCronTab fs "/etc/cron.daily" s
  let s ← addAnaCronTab fs "/etc/cron.weekly" s
  let s ← addAnaCronTab fs "/etc/cron.monthly" s
  return s

/-- The fresh singleton state allocated by `CronTabs.__new__` on first
use: an empty list of tabs, class attribute `_all = None`. -/
def initialSt : St :=
  ⟨[], [], none⟩

/-- `CronTabs.__init__` body: discovery runs only when the instance
list is empty (`if not self`). -/
def cronTabsInit (env : Env) (fs : FileSystem) (s : St) : Except Unit St :=
  if s.tabs = [] then discoverAll env fs s else .ok s

/-- A `CronTabs()` call: `__new__` returns the existing singleton state
if any (else the fresh one), then `__init__` runs on it. -/
def cronTabsCall (env : Env) (fs : FileSystem) (inst : Option St) :
    Except Unit St :=
  match inst with
  | some s => cronTabsInit env fs s
  | none => cronTabsInit env fs initialSt

/-! ### Derived notions used in statements -/

/-- The job ids of a list of tabs, tab by tab in order, each tab's ids
in their own order: the shape of the rebuilt merged view. -/
def flatIds : List Tab → List Nat
  | [] => []
  | t :: ts => t.jobIds ++ flatIds ts

/-- What the merged-view loop body makes of one job record of tab `t`. -/
def userDefault (t : Tab) (j : Job) : Job :=
  if j.user = none then { j with user := some (effUser t) } else j

/-- Every job reachable through `ids` on heap `h` has a non-null user. -/
def UsersOK (h : List Job) (ids : List Nat) : Prop :=
  ∀ id ∈ ids, ∀ j, h[id]? = some j → j.user ≠ none

/-- The `_all` cache, when present, only lists jobs with a non-null
user — true of every cache the aggregator ever writes. -/
def CacheOK (s : St) : Prop :=
  ∀ ids, s.allCache = some ids → UsersOK s.heap ids

/-- `j'` is `j` untouched, or `j` with a user defaulted in where there
was none: the only change a merged-view read can make to a record. -/
def userDefaultedFrom (j j' : Job) : Prop :=
  j' = j ∨ (j.user = none ∧ ∃ u, j' = { j with user := some u })

/-- The final state of a successful absorption pass: the template-job
user/schedule data absorbed for every kept entry, then the template
job deleted from its owning handle. -/
def anaResultSt (loc : String) (tj : Job) (items : List DirEntry) (s1 : St)
    (tid : Nat) : St :=
  deleteJob
    { s1 with heap := s1.heap ++ (items.filter anaKeep).map (absorbedJob loc tj) } tid

/-! ### Concrete fixtures (inputs for witnesses and counterexamples) -/

def schedW : Schedule := ⟨"5", "1", "*", "*", "*"⟩

def envW : Env := ⟨"pi", fun _ => [], fun _ => []⟩

/-- A template job launching anacron for `/etc/cron.daily`. -/
def jTmpl : Job := ⟨"/usr/sbin/anacron start /etc/cron.daily", some "root", "", schedW⟩

def tabRoot : Tab := ⟨some "root", some "/etc/crontab", [0]⟩

def stW : St := ⟨[jTmpl], [tabRoot], none⟩

def fsW : FileSystem :=
  ⟨[ ("/etc/cron.daily", some [⟨"0anacron", true, some "root"⟩, ⟨".bak", true, some "root"⟩,
       ⟨"run.sh", true, some "root"⟩])
   , ("/etc/cron.d/", some [⟨".hidden", true, none⟩, ⟨"job1", true, none⟩])
   , ("/spool", some [⟨"alice", false, some "alice"⟩]) ],
   ["/etc/crontab"]⟩

def tabNew : Tab := ⟨none, some "/etc/cron.d/x", []⟩

/-- A job with a null user, owned by an ownerless tab. -/
def jC7 : Job := ⟨"echo hi", none, "", schedW⟩

def tC7 : Tab := ⟨none, none, [0]⟩

def stC7 : St := ⟨[jC7], [tC7], none⟩

def fsC7 : FileSystem := ⟨[("/d", some [])], []⟩

/-- A snapshot where `/etc/cron.d/` exists as a directory but listing
it raises (permission denied). -/
def fsC8 : FileSystem := ⟨[("/etc/cron.d/", none)], []⟩

def tabAlice : Tab := ⟨some "alice", none, [0]⟩

def stC10 : St := ⟨[⟨"cmd", none, "", schedW⟩], [tabAlice], none⟩

/-! ### Lemmas on the merged-view rebuild -/

theorem assignJob_length (h : List Job) (t : Tab) (id : Nat) :
    (assignJob h t id).length = h.length := by
  unfold assignJob
  cases hg : h[id]? with
  | none => rfl
  | some j =>
    by_cases hu : j.user = none <;> simp [hu]

theorem assignJob_getElem_self (h : List Job) (t : Tab) (id : Nat) :
    (assignJob h t id)[id]? = (h[id]?).map (userDefault t) := by
  unfold assignJob
  cases hg : h[id]? with
  | none => simp [hg]
  | some j =>
    have hlt : id < h.length := by
      by_contra hge
      rw [List.getElem?_eq_none (Nat.le_of_not_lt hge)] at hg
      exact Option.noConfusion hg
    by_cases hu : j.user = none
    · simp [hu, userDefault, List.getElem?_set_self hlt]
    · simp [hu, userDefault, hg]

theorem assignJob_getElem_ne (h : List Job) (t : Tab) {id id' : Nat}
    (hne : id' ≠ id) : (assignJob h t id')[id]? = h[id]? := by
  unfold assignJob
  cases hg : h[id']? with
  | none => rfl
  | some j =>
    by_cases hu : j.user = none
    · simp [hu, List.getElem?_set_ne hne]
    · simp [hu]

theorem assignJob_userDefaulted (h : List Job) (t : Tab) (id' id : Nat)
    {j : Job} (hj : h[id]? = some j) :
    ∃ j', (assignJob h t id')[id]? = some j' ∧ userDefaultedFrom j j' := by
  by_cases hne : id' = id
  · subst hne
    rw [assignJob_getElem_self, hj]
    refine ⟨userDefault t j, rfl, ?_⟩
    unfold userDefault userDefaultedFrom
    by_cases hu : j.user = none
    · exact Or.inr ⟨hu, effUser t, by simp [hu]⟩
    · exact Or.inl (by simp [hu])
  · exact ⟨j, by rw [assignJob_getElem_ne h t hne, hj], Or.inl rfl⟩

theorem userDefaultedFrom_trans {j j' j'' : Job}
    (h1 : userDefaultedFrom j j') (h2 : userDefaultedFrom j' j'') :
    userDefaultedFrom j j'' := by
  rcases h1 with h1 | ⟨hu, u, h1⟩
  · subst h1; exact h2
  · rcases h2 with h2 | ⟨hu', _, _⟩
    · subst h2; exact Or.inr ⟨hu, u, h1⟩
    · exfalso; rw [h1] at hu'; exact Option.noConfusion hu'

theorem buildTabGo_acc (t : Tab) :
    ∀ (ids : List Nat) (h : List Job) (acc : List Nat),
      (buildTabGo t h acc ids).2 = acc ++ ids
  | [], _, _ => by simp [buildTabGo]
  | id :: rest, h, acc => by
    rw [buildTabGo, buildTabGo_acc t rest]
    simp

theorem buildAllGo_acc :
    ∀ (ts : List Tab) (h : List Job) (acc : List Nat),
      (buildAllGo h acc ts).2 = acc ++ flatIds ts
  | [], _, _ => by simp [buildAllGo, flatIds]
  | t :: ts, h, acc => by
    rw [buildAllGo, flatIds]
    have hin := buildTabGo_acc t t.jobIds h acc
    cases hgo : buildTabGo t h acc t.jobIds with
    | mk h' acc' =>
      rw [hgo] at hin
      have hin' : acc' = acc ++ t.jobIds := hin
      rw [buildAllGo_acc ts h' acc', hin', List.append_assoc]

theorem buildTabGo_length (t : Tab) :
    ∀ (ids : List Nat) (h : List Job) (acc : List Nat),
      (buildTabGo t h acc ids).1.length = h.length
  | [], _, _ => by simp [buildTabGo]
  | id :: rest, h, acc => by
    rw [buildTabGo, buildTabGo_length t rest]
    exact assignJob_length h t id

theorem buildAllGo_length :
    ∀ (ts : List Tab) (h : List Job) (acc : List Nat),
      (buildAllGo h acc ts).1.length = h.length
  | [], _, _ => by simp [buildAllGo]
  | t :: ts, h, acc => by
    rw [buildAllGo]
    cases hgo : buildTabGo t h acc t.jobIds with
    | mk h' acc' =>
      have := buildTabGo_length t t.jobIds h acc
      rw [hgo] at this
      simpa [buildAllGo_length ts h' acc'] using this

theorem buildTabGo_userDefaulted (t : Tab) :
    ∀ (ids : List Nat) (h : List Job) (acc : List Nat) (id : Nat) {j : Job},
      h[id]? = some j →
      ∃ j', (buildTabGo t h acc ids).1[id]? = some j' ∧ userDefaultedFrom j j'
  | [], _, _, id, j, hj => ⟨j, by simpa [buildTabGo] using hj, Or.inl rfl⟩
  | i :: rest, h, acc, id, j, hj => by
    rw [buildTabGo]
    obtain ⟨j', hj', hrel⟩ := assignJob_userDefaulted h t i id hj
    obtain ⟨j'', hj'', hrel'⟩ := buildTabGo_userDefaulted t rest (assignJob h t i) (acc ++ [i]) id hj'
    exact ⟨j'', hj'', userDefaultedFrom_trans hrel hrel'⟩

theorem buildAllGo_userDefaulted :
    ∀ (ts : List Tab) (h : List Job) (acc : List Nat) (id : Nat) {j : Job},
      h[id]? = some j →
      ∃ j', (buildAllGo h acc ts).1[id]? = some j' ∧ userDefaultedFrom j j'
  | [], _, _, id, j, hj => ⟨j, by simpa [buildAllGo] using hj, Or.inl rfl⟩
  | t :: ts, h, acc, id, j, hj => by
    rw [buildAllGo]
    obtain ⟨j', hj', hrel⟩ := buildTabGo_userDefaulted t t.jobIds h acc id hj
    cases hgo : buildTabGo t h acc t.jobIds with
    | mk h' acc' =>
      rw [hgo] at hj'
      obtain ⟨j'', hj'', hrel'⟩ := buildAllGo_userDefaulted ts h' acc' id hj'
      exact ⟨j'', hj'', userDefaultedFrom_trans hrel hrel'⟩

theorem userDefault_user (t : Tab) (j : Job) : (userDefault t j).user ≠ none := by
  unfold userDefault
  by_cases hu : j.user = none <;> simp [hu]

theorem assignJob_usersOK {h : List Job} {acc : List Nat} (t : Tab) (i : Nat)
    (hok : UsersOK h acc) : UsersOK (assignJob h t i) (acc ++ [i]) := by
  intro id hmem j hj
  by_cases hid : i = id
  · subst hid
    rw [assignJob_getElem_self] at hj
    obtain ⟨j0, _, hj0⟩ := Option.map_eq_some'.mp hj
    rw [← hj0]
    exact userDefault_user t j0
  · rw [assignJob_getElem_ne h t hid] at hj
    have : id ∈ acc := by
      rcases List.mem_append.mp hmem with h1 | h1
      · exact h1
      · exact absurd (List.mem_singleton.mp h1).symm hid
    exact hok id this j hj

theorem buildTabGo_usersOK (t : Tab) :
    ∀ (ids : List Nat) (h : List Job) (acc : List Nat), UsersOK h acc →
      UsersOK (buildTabGo t h acc ids).1 (buildTabGo t h acc ids).2
  | [], _, _, hok => by simpa [buildTabGo] using hok
  | i :: rest, h, acc, hok =>
    buildTabGo_usersOK t rest (assignJob h t i) (acc ++ [i]) (assignJob_usersOK t i hok)

theorem buildAllGo_usersOK :
    ∀ (ts : List Tab) (h : List Job) (acc : List Nat), UsersOK h acc →
      UsersOK (buildAllGo h acc ts).1 (buildAllGo h acc ts).2
  | [], _, _, hok => by simpa [buildAllGo] using hok
  | t :: ts, h, acc, hok => by
    rw [buildAllGo]
    have hin := buildTabGo_usersOK t t.jobIds h acc hok
    cases hgo : buildTabGo t h acc t.jobIds with
    | mk h' acc' =>
      rw [hgo] at hin
      exact buildAllGo_usersOK ts h' acc' hin

/-! ### Heap characterization of a rebuild under distinct job ids -/

theorem buildTabGo_get_notmem (t : Tab) :
    ∀ (ids : List Nat) (h : List Job) (acc : List Nat) (id : Nat), id ∉ ids →
      (buildTabGo t h acc ids).1[id]? = h[id]?
  | [], _, _, _, _ => by simp [buildTabGo]
  | i :: rest, h, acc, id, hnm => by
    rw [buildTabGo]
    have hne : i ≠ id := fun he => hnm (he ▸ List.mem_cons_self i rest)
    rw [buildTabGo_get_notmem t rest _ _ id (fun hm => hnm (List.mem_cons_of_mem i hm))]
    exact assignJob_getElem_ne h t hne

theorem buildTabGo_get_mem (t : Tab) :
    ∀ (ids : List Nat) (h : List Job) (acc : List Nat) (id : Nat),
      ids.Nodup → id ∈ ids →
      (buildTabGo t h acc ids).1[id]? = (h[id]?).map (userDefault t)
  | [], _, _, _, _, hm => absurd hm (List.not_mem_nil _)
  | i :: rest, h, acc, id, hnd, hm => by
    rw [buildTabGo]
    obtain ⟨hni, hndr⟩ := List.nodup_cons.mp hnd
    rcases List.mem_cons.mp hm with he | hr
    · subst he
      rw [buildTabGo_get_notmem t rest _ _ id hni]
      exact assignJob_getElem_self h t id
    · have hne : i ≠ id := fun he => hni (he ▸ hr)
      rw [buildTabGo_get_mem t rest _ _ id hndr hr, assignJob_getElem_ne h t hne]

theorem flatIds_append : ∀ (a b : List Tab), flatIds (a ++ b) = flatIds a ++ flatIds b
  | [], _ => by simp [flatIds]
  | t :: a, b => by
    rw [List.cons_append, flatIds, flatIds, flatIds_append a b, List.append_assoc]

theorem mem_flatIds_of : ∀ (ts : List Tab) (t : Tab) (id : Nat),
    t ∈ ts → id ∈ t.jobIds → id ∈ flatIds ts
  | [], _, _, hm, _ => absurd hm (List.not_mem_nil _)
  | t0 :: ts, t, id, hm, hid => by
    rw [flatIds, List.mem_append]
    rcases List.mem_cons.mp hm with he | hr
    · exact Or.inl (he ▸ hid)
    · exact Or.inr (mem_flatIds_of ts t id hr hid)

theorem buildAllGo_get_notmem :
    ∀ (ts : List Tab) (h : List Job) (acc : List Nat) (id : Nat),
      id ∉ flatIds ts → (buildAllGo h acc ts).1[id]? = h[id]?
  | [], _, _, _, _ => by simp [buildAllGo]
  | t :: ts, h, acc, id, hnm => by
    rw [buildAllGo]
    rw [flatIds] at hnm
    have h1 : id ∉ t.jobIds := fun hm => hnm (List.mem_append.mpr (Or.inl hm))
    have h2 : id ∉ flatIds ts := fun hm => hnm (List.mem_append.mpr (Or.inr hm))
    have hin := buildTabGo_get_notmem t t.jobIds h acc id h1
    cases hgo : buildTabGo t h acc t.jobIds with
    | mk h' acc' =>
      rw [hgo] at hin
      rw [buildAllGo_get_notmem ts h' acc' id h2]
      exact hin

theorem buildAllGo_get_mem :
    ∀ (ts : List Tab) (h : List Job) (acc : List Nat) (t : Tab) (id : Nat),
      (flatIds ts).Nodup → t ∈ ts → id ∈ t.jobIds →
      (buildAllGo h acc ts).1[id]? = (h[id]?).map (userDefault t)
  | [], _, _, _, _, _, hm, _ => absurd hm (List.not_mem_nil _)
  | t0 :: ts, h, acc, t, id, hnd, hm, hid => by
    rw [buildAllGo]
    rw [flatIds] at hnd
    obtain ⟨hnd1, hnd2, hdisj⟩ := List.nodup_append.mp hnd
    rcases List.mem_cons.mp hm with he | hr
    · subst he
      have hnm : id ∉ flatIds ts := fun hmem => hdisj hid hmem
      have hin := buildTabGo_get_mem t t.jobIds h acc id hnd1 hid
      cases hgo : buildTabGo t h acc t.jobIds with
      | mk h' acc' =>
        rw [hgo] at hin
        rw [buildAllGo_get_notmem ts h' acc' id hnm]
        exact hin
    · have hmem : id ∈ flatIds ts := mem_flatIds_of ts t id hr hid
      have hnm : id ∉ t0.jobIds := fun h0 => hdisj h0 hmem
      have hin := buildTabGo_get_notmem t0 t0.jobIds h acc id hnm
      cases hgo : buildTabGo t0 h acc t0.jobIds with
      | mk h' acc' =>
        rw [hgo] at hin
        rw [buildAllGo_get_mem ts h' acc' t id hnd2 hr hid]
        exact hin ▸ rfl

/-! ### `CronTabs.add` and the per-source loops -/

theorem addTabs_eq : ∀ (ts : List Tab) (s : St),
    addTabs s ts = if ts = [] then s else ⟨s.heap, s.tabs ++ ts, none⟩
  | [], s => by simp [addTabs]
  | t :: ts, s => by
    show addTabs ⟨s.heap, s.tabs ++ [t], none⟩ ts = _
    rw [addTabs_eq ts]
    by_cases hts : ts = [] <;> simp [hts]

theorem anaAddGo_spec (loc : String) (tj : Job) :
    ∀ (items : List DirEntry) (s : St) (acc : List Nat),
      anaAddGo loc tj s acc items =
        (acc ++ List.range' s.heap.length (items.filter anaKeep).length,
         { s with heap := s.heap ++ (items.filter anaKeep).map (absorbedJob loc tj) })
  | [], s, acc => by simp [anaAddGo]
  | e :: rest, s, acc => by
    cases hk : anaKeep e with
    | false =>
      rw [anaAddGo]
      simp only [hk, Bool.false_eq_true, if_false]
      rw [anaAddGo_spec loc tj rest s acc]
      simp [List.filter_cons, hk]
    | true =>
      rw [anaAddGo]
      simp only [hk, if_true]
      rw [anaAddGo_spec loc tj rest _ _]
      simp [List.filter_cons, hk, List.range'_succ, List.append_assoc]

theorem systemTabGo_tabfile (env : Env) (loc : String) :
    ∀ (items : List DirEntry) (s : St) (acc : List Tab),
      ((systemTabGo env loc s acc items).1).map Tab.tabfile
        = acc.map Tab.tabfile
          ++ (items.filter fun e => !(headIsDot e.name)).map
               (fun e => some (joinPath loc e.name))
  | [], _, _ => by simp [systemTabGo]
  | e :: rest, s, acc => by
    cases hd : headIsDot e.name with
    | true =>
      rw [systemTabGo]
      simp only [hd, if_true]
      rw [systemTabGo_tabfile env loc rest s acc]
      simp [List.filter_cons, hd]
    | false =>
      rw [systemTabGo]
      simp only [hd, Bool.false_eq_true, if_false]
      rw [systemTabGo_tabfile env loc rest _ _]
      simp [List.filter_cons, hd, mkFileTab, allocJobs]

theorem systemTabGo_tabUser (env : Env) (loc : String) :
    ∀ (items : List DirEntry) (s : St) (acc : List Tab) (t : Tab),
      t ∈ (systemTabGo env loc s acc items).1 → t ∈ acc ∨ t.tabUser = none
  | [], _, _, t, hm => Or.inl (by simpa [systemTabGo] using hm)
  | e :: rest, s, acc, t, hm => by
    rw [systemTabGo] at hm
    by_cases hd : headIsDot e.name
    · rw [if_pos hd] at hm
      exact systemTabGo_tabUser env loc rest s acc t hm
    · rw [if_neg hd] at hm
      rcases systemTabGo_tabUser env loc rest _ _ t hm with hin | hu
      · rcases List.mem_append.mp hin with h1 | h1
        · exact Or.inl h1
        · rw [List.mem_singleton.mp h1]
          exact Or.inr (by simp [mkFileTab, allocJobs])
      · exact Or.inr hu

/-! ### Equations and frame facts for `allRead` -/

theorem allRead_some (s : St) {ids : List Nat} (h : s.allCache = some ids) :
    allRead s = (ids, s) := by
  unfold allRead
  rw [h]

theorem allRead_none (s : St) (h : s.allCache = none) :
    allRead s = ((buildAllGo s.heap [] s.tabs).2,
      ⟨(buildAllGo s.heap [] s.tabs).1, s.tabs, some (buildAllGo s.heap [] s.tabs).2⟩) := by
  unfold allRead
  rw [h]

theorem allRead_tabs (s : St) : (allRead s).2.tabs = s.tabs := by
  cases hcache : s.allCache with
  | some ids => rw [allRead_some s hcache]
  | none => rw [allRead_none s hcache]

theorem allRead_heap_length (s : St) : (allRead s).2.heap.length = s.heap.length := by
  cases hcache : s.allCache with
  | some ids => rw [allRead_some s hcache]
  | none =>
    rw [allRead_none s hcache]
    exact buildAllGo_length s.tabs s.heap []

theorem allRead_userDefaulted (s : St) (id : Nat) {j : Job}
    (hj : s.heap[id]? = some j) :
    ∃ j', (allRead s).2.heap[id]? = some j' ∧ userDefaultedFrom j j' := by
  cases hcache : s.allCache with
  | some ids =>
    rw [allRead_some s hcache]
    exact ⟨j, hj, Or.inl rfl⟩
  | none =>
    rw [allRead_none s hcache]
    exact buildAllGo_userDefaulted s.tabs s.heap [] id hj

theorem userDefaultedFrom_fields {j j' : Job} (h : userDefaultedFrom j j') :
    j'.command = j.command ∧ j'.comment = j.comment ∧ j'.sched = j.sched ∧
      (j.user ≠ none → j' = j) := by
  rcases h with h | ⟨hu, u, h⟩
  · exact ⟨h ▸ rfl, h ▸ rfl, h ▸ rfl, fun _ => h⟩
  · subst h
    exact ⟨rfl, rfl, rfl, fun hne => absurd hu hne⟩

theorem deleteJob_not_mem (s : St) (id : Nat) :
    ∀ t ∈ (deleteJob s id).tabs, id ∉ t.jobIds := by
  intro t ht
  unfold deleteJob at ht
  simp only [List.mem_map] at ht
  obtain ⟨t0, _, rfl⟩ := ht
  simp [List.mem_filter]

/-! ### Claim theorems -/

/-- C2: for every aggregator state whose merged-view cache (if present)
was written by a merged-view read, every job in the sequence returned
by `CronTabs.all` has a non-null user field: a null-user job is
assigned its owning tab's user, or the literal `"unknown"` when the
tab has no user, before being appended to the merged view. -/
theorem CronTabsAll_users_nonnull (s : St) (hc : CacheOK s) :
    ∀ id ∈ (allRead s).1, ∀ j, (allRead s).2.heap[id]? = some j → j.user ≠ none := by
  cases hcache : s.allCache with
  | some ids =>
    rw [allRead_some s hcache]
    exact hc ids hcache
  | none =>
    rw [allRead_none s hcache]
    exact buildAllGo_usersOK s.tabs s.heap []
      (fun id hm => absurd hm (List.not_mem_nil id))

theorem CronTabsAll_users_nonnull_witness :
    CacheOK stC10 ∧
    (∀ id ∈ (allRead stC10).1, ∀ j, (allRead stC10).2.heap[id]? = some j →
      j.user ≠ none) := by
  have hc : CacheOK stC10 := fun ids h => nomatch h
  exact ⟨hc, CronTabsAll_users_nonnull stC10 hc⟩

/-- C3: two consecutive reads of `CronTabs.all` with no intervening
`add` return the same merged view and leave the state unchanged; after
an `add` appending at least one tab handle the cache is invalidated
(`none`), and the next read lists every job of the new tabs after all
previous tabs' jobs, tabs in insertion order, each tab's jobs in their
own order. -/
theorem CronTabsAll_cache_correct (s : St) (ts : List Tab) :
    allRead ((allRead s).2) = allRead s ∧
    (ts ≠ [] →
      (addTabs s ts).allCache = none ∧
      (allRead (addTabs s ts)).1 = flatIds s.tabs ++ flatIds ts) := by
  constructor
  · cases hcache : s.allCache with
    | some ids =>
      rw [allRead_some s hcache]
      exact allRead_some s hcache
    | none =>
      rw [allRead_none s hcache]
      rw [allRead_some _ rfl]
  · intro hts
    rw [addTabs_eq ts s, if_neg hts]
    refine ⟨rfl, ?_⟩
    rw [allRead_none _ rfl]
    show (buildAllGo s.heap [] (s.tabs ++ ts)).2 = _
    rw [buildAllGo_acc, flatIds_append]
    simp

theorem CronTabsAll_cache_correct_witness :
    ([tabNew] ≠ ([] : List Tab)) ∧
    (allRead ((allRead stW).2) = allRead stW ∧
      ((addTabs stW [tabNew]).allCache = none ∧
        (allRead (addTabs stW [tabNew])).1 = flatIds stW.tabs ++ flatIds [tabNew])) := by
  have h := CronTabsAll_cache_correct stW [tabNew]
  exact ⟨by decide, h.1, h.2 (by decide)⟩

/-- C4: when the spool directory listing yields no entries (absent,
unreadable, or empty), `UserSpool` raises nothing and produces exactly
one tab handle, bound to the invoking user's personal crontab, even if
that crontab is empty. -/
theorem UserSpool_fallback_single (env : Env) (fs : FileSystem) (loc : String)
    (s : St) (h : listdir fs loc = []) :
    (UserSpool env fs loc s).1.length = 1 ∧
    ∀ t ∈ (UserSpool env fs loc s).1,
      t.tabUser = some env.currentUser ∧ t.tabfile = none := by
  unfold UserSpool
  rw [h]
  simp [userSpoolGo, mkUserTab, allocJobs]

theorem UserSpool_fallback_single_witness :
    listdir fsW "/var/spool/cron/crontabs/" = [] ∧
    ((UserSpool envW fsW "/var/spool/cron/crontabs/" stW).1.length = 1 ∧
      ∀ t ∈ (UserSpool envW fsW "/var/spool/cron/crontabs/" stW).1,
        t.tabUser = some envW.currentUser ∧ t.tabfile = none) :=
  ⟨by decide, UserSpool_fallback_single envW fsW "/var/spool/cron/crontabs/" stW (by decide)⟩

/-- C5: for a spool entry whose file owner matches the entry name,
`UserSpool.generate` yields a handle bound to that user; when the owner
differs, or the UID resolves to no account at all (`owner = none`), it
yields a handle bound directly to the file path with no user
identity — and owner resolution never escapes as an exception
(`generate` is total). -/
theorem UserSpool_owner_classification (env : Env) (loc : String) (e : DirEntry)
    (s : St) :
    (e.owner = some e.name →
      (generate env loc e s).1.tabUser = some e.name ∧
      (generate env loc e s).1.tabfile = none) ∧
    (e.owner ≠ some e.name →
      (generate env loc e s).1.tabUser = none ∧
      (generate env loc e s).1.tabfile = some (joinPath loc e.name)) := by
  constructor
  · intro ho
    have : ¬(get_owner e ≠ some e.name) := by simp [get_owner, ho]
    simp [generate, this, mkUserTab, allocJobs]
  · intro ho
    have : get_owner e ≠ some e.name := by simp [get_owner, ho]
    simp [generate, this, mkFileTab, allocJobs]

theorem UserSpool_owner_classification_witness :
    ((⟨"alice", false, some "alice"⟩ : DirEntry).owner = some "alice" ∧
      (generate envW "/spool" ⟨"alice", false, some "alice"⟩ stW).1.tabUser = some "alice") ∧
    ((⟨"alice", false, some "bob"⟩ : DirEntry).owner ≠ some "alice" ∧
      (generate envW "/spool" ⟨"alice", false, some "bob"⟩ stW).1.tabUser = none) ∧
    ((⟨"alice", false, none⟩ : DirEntry).owner ≠ some "alice" ∧
      (generate envW "/spool" ⟨"alice", false, none⟩ stW).1.tabfile =
        some (joinPath "/spool" "alice")) := by
  refine ⟨⟨by decide, ?_⟩, ⟨by decide, ?_⟩, ⟨by decide, ?_⟩⟩
  · exact ((UserSpool_owner_classification envW "/spool" ⟨"alice", false, some "alice"⟩ stW).1
      (by decide)).1
  · exact ((UserSpool_owner_classification envW "/spool" ⟨"alice", false, some "bob"⟩ stW).2
      (by decide)).1
  · exact ((UserSpool_owner_classification envW "/spool" ⟨"alice", false, none⟩ stW).2
      (by decide)).2

/-- C9: `CronTabs` is a singleton: a constructor call when the instance
exists returns that same instance, and when it already holds at least
one tab handle the call is a no-op — the state is returned unchanged
and no discovery pass over the registry runs. -/
theorem CronTabs_singleton_noop (env : Env) (fs : FileSystem) (s : St)
    (h : s.tabs ≠ []) :
    cronTabsCall env fs (some s) = .ok s := by
  simp [cronTabsCall, cronTabsInit, h]

theorem CronTabs_singleton_noop_witness :
    stW.tabs ≠ [] ∧ cronTabsCall envW fsW (some stW) = .ok stW :=
  ⟨by decide, CronTabs_singleton_noop envW fsW stW (by decide)⟩

/-- C6: for a readable directory, `SystemTab` produces exactly one
ownerless handle per entry whose name does not start with `.`, each
bound to that entry's full path; for a regular file, exactly one
ownerless handle bound to it; for a path that is neither, zero handles
and no error. -/
theorem SystemTab_discovery_cases (env : Env) (fs : FileSystem) (loc : String)
    (s : St) :
    (∀ items, fsIsDir fs loc = true → fsRawListdir fs loc = .ok items →
      ∃ ts s', SystemTab env fs loc s = .ok (ts, s') ∧
        ts.map Tab.tabfile
          = (items.filter fun e => !(headIsDot e.name)).map
              (fun e => some (joinPath loc e.name)) ∧
        ∀ t ∈ ts, t.tabUser = none) ∧
    (fsIsDir fs loc = false → fsIsFile fs loc = true →
      SystemTab env fs loc s =
        .ok ([⟨none, some loc, (allocJobs s (env.fileTabJobs loc)).1⟩],
             (allocJobs s (env.fileTabJobs loc)).2)) ∧
    (fsIsDir fs loc = false → fsIsFile fs loc = false →
      SystemTab env fs loc s = .ok ([], s)) := by
  refine ⟨?_, ?_, ?_⟩
  · intro items hdir hraw
    cases hgo : systemTabGo env loc s [] items with
    | mk ts s' =>
      refine ⟨ts, s', ?_, ?_, ?_⟩
      · simp [SystemTab, hdir, hraw, hgo]
      · have hf := systemTabGo_tabfile env loc items s []
        rw [hgo] at hf
        simpa using hf
      · intro t ht
        have hu := systemTabGo_tabUser env loc items s [] t (by rw [hgo]; exact ht)
        rcases hu with h1 | h1
        · exact absurd h1 (List.not_mem_nil t)
        · exact h1
  · intro hdir hfile
    simp [SystemTab, hdir, hfile, mkFileTab]
  · intro hdir hfile
    simp [SystemTab, hdir, hfile]

theorem SystemTab_discovery_cases_witness :
    (∃ ts s', SystemTab envW fsW "/etc/cron.d/" stW = .ok (ts, s') ∧
       ts.map Tab.tabfile = [some "/etc/cron.d/job1"] ∧
       ∀ t ∈ ts, t.tabUser = none) ∧
    SystemTab envW fsW "/etc/crontab" stW =
      .ok ([⟨none, some "/etc/crontab", (allocJobs stW (envW.fileTabJobs "/etc/crontab")).1⟩],
           (allocJobs stW (envW.fileTabJobs "/etc/crontab")).2) ∧
    SystemTab envW fsW "/nope" stW = .ok ([], stW) := by
  refine ⟨?_, ?_, ?_⟩
  · obtain ⟨ts, s', h1, h2, h3⟩ :=
      (SystemTab_discovery_cases envW fsW "/etc/cron.d/" stW).1
        [⟨".hidden", true, none⟩, ⟨"job1", true, none⟩] (by decide) rfl
    refine ⟨ts, s', h1, ?_, h3⟩
    rw [h2]
    decide
  · exact (SystemTab_discovery_cases envW fsW "/etc/crontab" stW).2.1 (by decide) (by decide)
  · exact (SystemTab_discovery_cases envW fsW "/nope" stW).2.2 (by decide) (by decide)

/-- C10: a rebuilding read of `CronTabs.all` (cache absent, job ids of
the owned tabs distinct) returns exactly the owned handles' job ids —
the very same job records, not copies — leaves the handles' id lists
unchanged, and rewrites each owned record to its user-defaulted form on
the shared heap: a job whose user was null is permanently assigned the
owning tab's user (or `"unknown"`) as seen through its original handle,
so a merged-view read does not leave the owned tabs' jobs unchanged. -/
theorem CronTabsAll_same_objects_frame (s : St) (hc : s.allCache = none)
    (hnd : (flatIds s.tabs).Nodup) :
    (allRead s).1 = flatIds s.tabs ∧
    (allRead s).2.tabs = s.tabs ∧
    ∀ t ∈ s.tabs, ∀ id ∈ t.jobIds,
      (allRead s).2.heap[id]? = (s.heap[id]?).map (userDefault t) := by
  rw [allRead_none s hc]
  refine ⟨?_, rfl, ?_⟩
  · show (buildAllGo s.heap [] s.tabs).2 = _
    rw [buildAllGo_acc]
    simp
  · intro t ht id hid
    exact buildAllGo_get_mem s.tabs s.heap [] t id hnd ht hid

theorem CronTabsAll_same_objects_frame_witness :
    (stC10.allCache = none ∧ (flatIds stC10.tabs).Nodup) ∧
    ((allRead stC10).1 = flatIds stC10.tabs ∧
      (allRead stC10).2.heap[0]? = (stC10.heap[0]?).map (userDefault tabAlice) ∧
      (allRead stC10).2.heap[0]? = some ⟨"cmd", some "alice", "", schedW⟩ ∧
      stC10.heap[0]? = some ⟨"cmd", none, "", schedW⟩) := by
  have h := CronTabsAll_same_objects_frame stC10 rfl (by decide)
  refine ⟨⟨rfl, by decide⟩, h.1, h.2.2 tabAlice (by decide) 0 (by decide), ?_, by decide⟩
  rw [h.2.2 tabAlice (by decide) 0 (by decide)]
  decide

/-- Reduced form of `AnaCronTab` once its guard holds. -/
theorem AnaCronTab_eq_match (fs : FileSystem) (loc : String) (s : St)
    (h : s.tabs ≠ [] ∧ fsIsDir fs loc = true) :
    AnaCronTab fs loc s =
      match findCommandJobs (allRead s).2.heap (allRead s).1 loc with
      | [] => .ok ([⟨none, none, []⟩], (allRead s).2)
      | (tid, tj) :: _ =>
        match fsRawListdir fs loc with
        | .error _ => .error ()
        | .ok items =>
          .ok ([⟨none, none, (anaAddGo loc tj (allRead s).2 [] items).1⟩],
               deleteJob (anaAddGo loc tj (allRead s).2 [] items).2 tid) := by
  unfold AnaCronTab
  rw [if_pos h]

/-- C1: when the aggregator already holds tabs, the directory exists
and is listable, and the merged-view search finds a template job whose
command references the directory, `AnaCronTab` creates exactly one new
job in the single seeded handle for each entry passing the three
filters — command the entry's full path, user the template job's user,
comment `"Anacron "` plus the last dot-separated segment of the
directory path, schedule fields copied verbatim from the template —
entries failing a filter produce nothing, and afterwards the template
job is deleted from its original handle. -/
theorem AnaCronTab_absorbs_spec (fs : FileSystem) (loc : String) (s : St)
    (tid : Nat) (tj : Job) (rest : List (Nat × Job)) (items : List DirEntry)
    (h1 : s.tabs ≠ []) (h2 : fsIsDir fs loc = true)
    (h3 : findCommandJobs (allRead s).2.heap (allRead s).1 loc = (tid, tj) :: rest)
    (h4 : fsRawListdir fs loc = .ok items) :
    AnaCronTab fs loc s =
      .ok ([⟨none, none,
             List.range' (allRead s).2.heap.length (items.filter anaKeep).length⟩],
           anaResultSt loc tj items (allRead s).2 tid) ∧
    (∀ k, (hk : k < (items.filter anaKeep).length) →
       (anaResultSt loc tj items (allRead s).2 tid).heap[(allRead s).2.heap.length + k]?
         = some ⟨joinPath loc ((items.filter anaKeep).get ⟨k, hk⟩).name, tj.user,
                 "Anacron " ++ lastDotSegment loc, tj.sched⟩) ∧
    (∀ e : DirEntry, anaKeep e = true ↔
       (e.name ≠ "0anacron" ∧ headIsDot e.name = false ∧ e.executable = true)) ∧
    (∀ t ∈ (anaResultSt loc tj items (allRead s).2 tid).tabs, tid ∉ t.jobIds) := by
  refine ⟨?_, ?_, ?_, ?_⟩
  · have hred : AnaCronTab fs loc s =
        .ok ([(⟨none, none, (anaAddGo loc tj (allRead s).2 [] items).1⟩ : Tab)],
             deleteJob (anaAddGo loc tj (allRead s).2 [] items).2 tid) := by
      rw [AnaCronTab_eq_match fs loc s ⟨h1, h2⟩, h3, h4]
    rw [hred, anaAddGo_spec loc tj items (allRead s).2 []]
    simp [anaResultSt]
  · intro k hk
    show ((allRead s).2.heap ++ (items.filter anaKeep).map (absorbedJob loc tj))[(allRead s).2.heap.length + k]? = _
    rw [List.getElem?_append_right (Nat.le_add_right _ _), Nat.add_sub_cancel_left,
      List.getElem?_map, List.getElem?_eq_getElem hk]
    rfl
  · intro e
    simp [anaKeep, not_or, and_assoc]
  · exact fun t ht => deleteJob_not_mem _ tid t ht

theorem AnaCronTab_absorbs_spec_witness :
    (stW.tabs ≠ [] ∧ fsIsDir fsW "/etc/cron.daily" = true ∧
      findCommandJobs (allRead stW).2.heap (allRead stW).1 "/etc/cron.daily"
        = [(0, jTmpl)]) ∧
    AnaCronTab fsW "/etc/cron.daily" stW =
      .ok ([⟨none, none, [1]⟩],
           ⟨[jTmpl, ⟨"/etc/cron.daily/run.sh", some "root", "Anacron daily", schedW⟩],
            [⟨some "root", some "/etc/crontab", []⟩], some [0]⟩) := by
  have h := AnaCronTab_absorbs_spec fsW "/etc/cron.daily" stW 0 jTmpl []
    [⟨"0anacron", true, some "root"⟩, ⟨".bak", true, some "root"⟩,
     ⟨"run.sh", true, some "root"⟩]
    (by decide) (by decide) (by decide) rfl
  exact ⟨⟨by decide, by decide, by decide⟩, h.1.trans rfl⟩

/-- C7 as stated is false: with a non-empty aggregator, an existing
directory and no matching anacron command, `AnaCronTab` does mutate an
existing job of another handle — the `tabs.all` search performed
during construction assigns `"unknown"` to the user of a job whose
user was null. The seeded handle and the zero-job part hold, but "no
mutation of any existing job" does not. -/
theorem AnaCronTab_search_mutates_counterexample :
    stC7.tabs ≠ [] ∧ fsIsDir fsC7 "/d" = true ∧
    AnaCronTab fsC7 "/d" stC7 =
      .ok ([⟨none, none, []⟩],
           ⟨[⟨"echo hi", some "unknown", "", schedW⟩], [tC7], some [0]⟩) ∧
    stC7.heap[0]? = some jC7 ∧ jC7.user = none ∧
    (⟨[⟨"echo hi", some "unknown", "", schedW⟩], [tC7], some [0]⟩ : St).heap[0]?
      ≠ stC7.heap[0]? := by
  exact ⟨by decide, by decide, rfl, by decide, by decide, by decide⟩

/-- C7 (amended): `AnaCronTab` produces zero handles and no state
change when the directory is missing or the aggregator holds no tabs;
when both preconditions hold and no job's command references the
directory, it produces exactly one seeded ownerless handle with zero
jobs, deletes nothing, leaves every handle's job list unchanged, and
mutates no existing job except that the merged-view search can assign
an effective user (the owning tab's user or `"unknown"`) to a job
whose user was null. -/
theorem AnaCronTab_degenerate_amended (fs : FileSystem) (loc : String) (s : St) :
    (¬(s.tabs ≠ [] ∧ fsIsDir fs loc = true) → AnaCronTab fs loc s = .ok ([], s)) ∧
    (s.tabs ≠ [] → fsIsDir fs loc = true →
      findCommandJobs (allRead s).2.heap (allRead s).1 loc = [] →
      AnaCronTab fs loc s = .ok ([⟨none, none, []⟩], (allRead s).2) ∧
      (allRead s).2.tabs = s.tabs ∧
      (allRead s).2.heap.length = s.heap.length ∧
      ∀ id : Nat, ∀ j j' : Job, s.heap[id]? = some j →
        (allRead s).2.heap[id]? = some j' →
        j'.command = j.command ∧ j'.comment = j.comment ∧ j'.sched = j.sched ∧
        (j.user ≠ none → j' = j)) := by
  constructor
  · intro h
    unfold AnaCronTab
    rw [if_neg h]
  · intro h1 h2 hf
    refine ⟨?_, allRead_tabs s, allRead_heap_length s, ?_⟩
    · rw [AnaCronTab_eq_match fs loc s ⟨h1, h2⟩, hf]
    · intro id j j' hj hj'
      obtain ⟨j'', hj'', hrel⟩ := allRead_userDefaulted s id hj
      rw [hj'] at hj''
      rw [Option.some.injEq] at hj''
      exact hj'' ▸ userDefaultedFrom_fields hrel

theorem AnaCronTab_degenerate_amended_witness :
    (¬(stW.tabs ≠ [] ∧ fsIsDir fsW "/missing" = true) ∧
      AnaCronTab fsW "/missing" stW = .ok ([], stW)) ∧
    (stC7.tabs ≠ [] ∧ fsIsDir fsC7 "/d" = true ∧
      findCommandJobs (allRead stC7).2.heap (allRead stC7).1 "/d" = [] ∧
      AnaCronTab fsC7 "/d" stC7 = .ok ([⟨none, none, []⟩], (allRead stC7).2)) := by
  constructor
  · have hng : ¬(stW.tabs ≠ [] ∧ fsIsDir fsW "/missing" = true) := by
      intro h
      exact absurd h.2 (by decide)
    exact ⟨hng, (AnaCronTab_degenerate_amended fsW "/missing" stW).1 hng⟩
  · have h := (AnaCronTab_degenerate_amended fsC7 "/d" stC7).2
      (by decide) (by decide) (by decide)
    exact ⟨by decide, by decide, by decide, h.1⟩

/-- C8 is the spec's intent but not what the code does: `SystemTab`
(and `AnaCronTab`) list their directory unguarded, so a directory that
exists but cannot be read raises out of the source, and the error
propagates through `CronTabs.__init__`, aborting the whole discovery
pass instead of being recovered locally as an empty result. -/
theorem SystemTab_unreadable_aborts_discovery :
    fsIsDir fsC8 "/etc/cron.d/" = true ∧
    SystemTab envW fsC8 "/etc/cron.d/" initialSt = .error () ∧
    discoverAll envW fsC8 initialSt = .error () :=
  ⟨by decide, rfl, rfl⟩

end Crontabs
